import Mathlib

/-!
Verification development for the JSON-schema generation utilities of
`transformers/utils/chat_template_utils.py`.

The Python module has three components, each shallowly embedded below:

* `_parse_type_hint` / `_get_json_schema_type` — a recursive converter from
  Python type hints to JSON-schema-like fragments (`parseTypeHint`,
  `getJsonSchemaType`);
* `parse_google_format_docstring` — a regex-based docstring section parser
  (`parseDoc` and its helpers, which implement the deterministic semantics
  of the three fixed regular expressions used by the source);
* `get_json_schema` — the assembler that merges type fragments with parsed
  descriptions and inline `(choices: ...)` enum markers (`getJsonSchema`).

Python exceptions are modelled with `Except Err`; machine strings are plain
`String` / `List Char`.  Whitespace sets follow the ASCII subset of
Python's `str.strip` / regex `\s` (space, tab, newline, carriage return,
vertical tab, form feed); JSON whitespace is the four-character JSON set.
-/

/-- ASCII whitespace as recognised by Python's `str.strip` and regex `\s`. -/
def pyIsWs (c : Char) : Bool :=
  c = ' ' || c = '\t' || c = '\n' || c = '\r' || c = '\x0b' || c = '\x0c'

/-- `l.dropWhile` on both ends: the `List Char` core of Python's `str.strip()`. -/
def listStrip (l : List Char) : List Char :=
  ((l.dropWhile pyIsWs).reverse.dropWhile pyIsWs).reverse

/-- Python's `s.strip()` (ASCII whitespace). -/
def pyStrip (s : String) : String := ⟨listStrip s.data⟩

/-- Case-sensitive "starts with" on character lists. -/
def listStarts : List Char → List Char → Bool
  | [], _ => true
  | _ :: _, [] => false
  | p :: ps, c :: cs => p == c && listStarts ps cs

/-- Index of the first occurrence of `pat` as a contiguous sublist, if any
(the semantics of Python's `str.find` for a fixed pattern). -/
def findSub (pat : List Char) : List Char → Option Nat
  | [] => if pat.isEmpty then some 0 else none
  | c :: rest =>
      if listStarts pat (c :: rest) then some 0
      else (findSub pat rest).map (· + 1)

/-- Minimum of two optional positions (`none` = not found). -/
def optMin : Option Nat → Option Nat → Option Nat
  | none, b => b
  | some a, none => some a
  | some a, some b => some (min a b)

/-- Python's `text.split("\n")`: every newline separates, empty pieces kept. -/
def splitOnNl : List Char → List (List Char)
  | [] => [[]]
  | c :: rest =>
      if c = '\n' then [] :: splitOnNl rest
      else
        match splitOnNl rest with
        | [] => [[c]]
        | l :: ls => (c :: l) :: ls

/-- Python's `line.split(":", 1)` when it yields two parts; `none` models the
single-element result whose tuple unpacking raises `ValueError`. -/
def splitColon1 : List Char → Option (List Char × List Char)
  | [] => none
  | c :: rest =>
      if c = ':' then some ([], rest)
      else (splitColon1 rest).map (fun p => (c :: p.1, p.2))

/-- First-match association-list lookup (Python dict `in` / `[]`). -/
def lookupAssoc (k : String) : List (String × α) → Option α
  | [] => none
  | (k', v) :: rest => if k' = k then some v else lookupAssoc k rest

/-- Python dict assignment `d[k] = v`: overwrites in place, keeps the original
insertion position, appends new keys at the end. -/
def dictUpsert (k v : String) : List (String × String) → List (String × String)
  | [] => [(k, v)]
  | (k', v') :: rest =>
      if k' = k then (k, v) :: rest else (k', v') :: dictUpsert k v rest

/-! ### Type hints

`PyType` mirrors the shapes `_parse_type_hint` can receive from
`typing.get_type_hints`: the seven members of `BASIC_TYPES`
(`int, float, str, bool, Any, type(None), ...`), other bare classes
(`custom`), and generic aliases, for which `get_origin` is non-`None`:
`Union`, `list`, `tuple`, `dict`, and anything else (`genericT`). -/

inductive PyType where
  | int
  | float
  | str
  | bool
  | anyT
  | noneT
  | ellipsisT
  | custom (name : String)
  | unionT (args : List PyType)
  | listT (args : List PyType)
  | tupleT (args : List PyType)
  | dictT (args : List PyType)
  | genericT (name : String) (args : List PyType)

/-- `t == type(None)`. -/
def isNoneT : PyType → Bool
  | .noneT => true
  | _ => false

/-- `t == Ellipsis`. -/
def isEllipsisT : PyType → Bool
  | .ellipsisT => true
  | _ => false

/-- Membership in the module constant `BASIC_TYPES`. -/
def isBasicT : PyType → Bool
  | .int | .float | .str | .bool | .anyT | .noneT | .ellipsisT => true
  | _ => false

/-- The filter `t not in (type(None), ...)` used by the `Union` branches. -/
def keepUnion (t : PyType) : Bool := !(isNoneT t || isEllipsisT t)

/-! ### Schema fragments

A fragment is a JSON object with at most these keys; absent keys are `none`.
`pfxItems` embeds the source's `prefixItems` key. -/

inductive TypeField where
  | single (t : String)
  | multi (ts : List String)

inductive Schema where
  | mk (typ : Option TypeField)
       (anyOf : Option (List Schema))
       (items : Option Schema)
       (pfxItems : Option (List Schema))
       (addProps : Option Schema)
       (nullable : Option Bool)
       (enum : Option (List String))
       (descr : Option String)

def Schema.typ : Schema → Option TypeField
  | ⟨t, _, _, _, _, _, _, _⟩ => t

def Schema.anyOf : Schema → Option (List Schema)
  | ⟨_, a, _, _, _, _, _, _⟩ => a

def Schema.items : Schema → Option Schema
  | ⟨_, _, i, _, _, _, _, _⟩ => i

def Schema.pfxItems : Schema → Option (List Schema)
  | ⟨_, _, _, p, _, _, _, _⟩ => p

def Schema.addProps : Schema → Option Schema
  | ⟨_, _, _, _, ap, _, _, _⟩ => ap

def Schema.nullable : Schema → Option Bool
  | ⟨_, _, _, _, _, n, _, _⟩ => n

def Schema.enum : Schema → Option (List String)
  | ⟨_, _, _, _, _, _, e, _⟩ => e

def Schema.descr : Schema → Option String
  | ⟨_, _, _, _, _, _, _, d⟩ => d

/-- `fragment["nullable"] = True`. -/
def Schema.setNullable : Schema → Schema
  | ⟨t, a, i, p, ap, _, e, d⟩ => ⟨t, a, i, p, ap, some true, e, d⟩

/-- `fragment["enum"] = choices`. -/
def Schema.setEnum (choices : List String) : Schema → Schema
  | ⟨t, a, i, p, ap, n, _, d⟩ => ⟨t, a, i, p, ap, n, some choices, d⟩

/-- `fragment["description"] = s`. -/
def Schema.setDescr (s : String) : Schema → Schema
  | ⟨t, a, i, p, ap, n, e, _⟩ => ⟨t, a, i, p, ap, n, e, some s⟩

/-- `{"type": tf}`. -/
def typeSchema (tf : TypeField) : Schema :=
  ⟨some tf, none, none, none, none, none, none, none⟩

/-- `{}` — the fragment for `Any`. -/
def emptySchema : Schema := ⟨none, none, none, none, none, none, none, none⟩

/-- `{"anyOf": fs}`. -/
def anyOfSchema (fs : List Schema) : Schema :=
  ⟨none, some fs, none, none, none, none, none, none⟩

/-- `{"type": "array", "items": it}`. -/
def arraySchema (it : Schema) : Schema :=
  ⟨some (.single "array"), none, some it, none, none, none, none, none⟩

/-- `{"type": "array", "prefixItems": fs}`. -/
def arrayPfx (fs : List Schema) : Schema :=
  ⟨some (.single "array"), none, none, some fs, none, none, none, none⟩

/-- `{"type": "object"}`. -/
def objectSchema : Schema := typeSchema (.single "object")

/-- `{"type": "object", "additionalProperties": v}`. -/
def objectWith (v : Schema) : Schema :=
  ⟨some (.single "object"), none, none, none, some v, none, none, none⟩

/-! ### Errors

Every fatal path of the module.  The source raises `ValueError` with a
descriptive message for the deliberate checks; `unpackNoColon` models the
implicit `ValueError: not enough values to unpack` raised by
`arg_name, arg_desc = line.split(":", 1)` on a colon-free line,
`keyErrorType` the `KeyError: 'type'` from `_get_json_schema_type(t)["type"]`
when `t` is `Any`, `jsonDecodeFail` the `json.JSONDecodeError` from
`json.loads`, and `enumNotIterable` the `TypeError`/`AttributeError` from
`[c.strip() for c in ...]` when the decoded value is not iterable or has a
non-string element. -/

inductive Err where
  | missingDocstring (func : String)
  | missingTypeHint (param func : String)
  | missingDescr (param func : String)
  | unsupportedHint (hint : PyType)
  | tupleArityOne (hint : PyType)
  | tupleVariadic
  | keyErrorType
  | unpackNoColon (line : String)
  | jsonDecodeFail (payload : String)
  | enumNotIterable (payload : String)

/-- `_get_json_schema_type`: the closed primitive mapping with its
`{"type": "object"}` fallback for every other bare type. -/
def getJsonSchemaType : PyType → Schema
  | .int => typeSchema (.single "integer")
  | .float => typeSchema (.single "number")
  | .str => typeSchema (.single "string")
  | .bool => typeSchema (.single "boolean")
  | .anyT => emptySchema
  | _ => objectSchema

/-- `_get_json_schema_type(t)["type"]`: key access that raises `KeyError`
when the fragment has no `type` key (only the case `t = Any`). -/
def basicTypeName (t : PyType) : Except Err String :=
  match (getJsonSchemaType t).typ with
  | some (.single s) => .ok s
  | _ => .error .keyErrorType

/-- The `len(...) == 1` collapse of a `type` list to a bare string. -/
def collapseTypes : List String → TypeField
  | [t] => .single t
  | ts => .multi ts

/-- The `len(...) == 1` collapse of an `anyOf` list to its only fragment. -/
def collapseAnyOf : List Schema → Schema
  | [f] => f
  | fs => anyOfSchema fs

/-- `if type(None) in get_args(hint): return_dict["nullable"] = True`. -/
def applyNullable (args : List PyType) (s : Schema) : Schema :=
  if args.any isNoneT then s.setNullable else s

/-- `[_get_json_schema_type(t)["type"] for t in ts]`: left-to-right, stopping
at the first error. -/
def mapTypeNames : List PyType → Except Err (List String)
  | [] => .ok []
  | t :: ts =>
      match basicTypeName t with
      | .error e => .error e
      | .ok s =>
          match mapTypeNames ts with
          | .error e => .error e
          | .ok rest => .ok (s :: rest)

mutual

/-- `_parse_type_hint`, translated branch by branch. -/
def parseTypeHint : PyType → Except Err Schema
  | .unionT args =>
      if args.all isBasicT then
        match mapTypeNames (args.filter keepUnion) with
        | .error e => .error e
        | .ok types => .ok (applyNullable args (typeSchema (collapseTypes types)))
      else
        match parseHintsKept args with
        | .error e => .error e
        | .ok frags => .ok (applyNullable args (collapseAnyOf frags))
  | .listT args =>
      match args with
      | [] => .ok (typeSchema (.single "array"))
      | _ :: _ =>
          if args.all isBasicT then
            match mapTypeNames (args.filter (fun t => !isNoneT t)) with
            | .error e => .error e
            | .ok types =>
                .ok (applyNullable args (arraySchema (typeSchema (collapseTypes types))))
          else
            match parseHintsKept args with
            | .error e => .error e
            | .ok frags =>
                .ok (applyNullable args (arraySchema (collapseAnyOf frags)))
  | .tupleT args =>
      match args with
      | [] => .ok (typeSchema (.single "array"))
      | [t] => .error (.tupleArityOne (.tupleT [t]))
      | t1 :: t2 :: ts =>
          if (t1 :: t2 :: ts).any isEllipsisT then .error .tupleVariadic
          else
            match parseHintsAll (t1 :: t2 :: ts) with
            | .error e => .error e
            | .ok frags => .ok (arrayPfx frags)
  | .dictT args =>
      match args with
      | [_, v] =>
          match parseTypeHint v with
          | .error e => .error e
          | .ok frag => .ok (objectWith frag)
      | _ => .ok objectSchema
  | .genericT n args => .error (.unsupportedHint (.genericT n args))
  | .int => .ok (getJsonSchemaType .int)
  | .float => .ok (getJsonSchemaType .float)
  | .str => .ok (getJsonSchemaType .str)
  | .bool => .ok (getJsonSchemaType .bool)
  | .anyT => .ok (getJsonSchemaType .anyT)
  | .noneT => .ok (getJsonSchemaType .noneT)
  | .ellipsisT => .ok (getJsonSchemaType .ellipsisT)
  | .custom n => .ok (getJsonSchemaType (.custom n))

/-- `[_parse_type_hint(t) for t in args if t not in (type(None), ...)]`:
recursion over the members kept by the `Union`/complex-`list` filter,
stopping at the first error. -/
def parseHintsKept : List PyType → Except Err (List Schema)
  | [] => .ok []
  | t :: ts =>
      if keepUnion t then
        match parseTypeHint t with
        | .error e => .error e
        | .ok s =>
            match parseHintsKept ts with
            | .error e => .error e
            | .ok rest => .ok (s :: rest)
      else parseHintsKept ts

/-- `[_parse_type_hint(t) for t in args]` (the `tuple` branch). -/
def parseHintsAll : List PyType → Except Err (List Schema)
  | [] => .ok []
  | t :: ts =>
      match parseTypeHint t with
      | .error e => .error e
      | .ok s =>
          match parseHintsAll ts with
          | .error e => .error e
          | .ok rest => .ok (s :: rest)

end

/-! ### JSON values and `json.loads`

`get_json_schema` feeds the captured `(choices: ...)` group to `json.loads`
and then evaluates `[c.strip() for c in value]`.  `Json` models decoded
values (number payloads keep their lexeme; their value is never used), and
`jsonParse` models `json.loads` with its default settings: JSON whitespace,
strict strings (unescaped control characters rejected), the `NaN` /
`Infinity` / `-Infinity` constants accepted.  `\uXXXX` escapes are decoded
code unit by code unit (surrogate pairs are not recombined; only the decoded
characters differ in that case, not acceptance). -/

inductive Json where
  | null
  | jbool (b : Bool)
  | num (raw : String)
  | jstr (s : String)
  | arr (elems : List Json)
  | obj (pairs : List (String × Json))

/-- JSON whitespace (`' '`, `'\t'`, `'\n'`, `'\r'`). -/
def jsonIsWs (c : Char) : Bool :=
  c = ' ' || c = '\t' || c = '\n' || c = '\r'

def jsonSkipWs (l : List Char) : List Char := l.dropWhile jsonIsWs

def hexVal (c : Char) : Option Nat :=
  if '0' ≤ c ∧ c ≤ '9' then some (c.toNat - 48)
  else if 'a' ≤ c ∧ c ≤ 'f' then some (c.toNat - 87)
  else if 'A' ≤ c ∧ c ≤ 'F' then some (c.toNat - 55)
  else none

/-- Single-character JSON escapes (`\uXXXX` is handled separately). -/
def escChar : Char → Option Char
  | '"' => some '"'
  | '\\' => some '\\'
  | '/' => some '/'
  | 'b' => some '\x08'
  | 'f' => some '\x0c'
  | 'n' => some '\n'
  | 'r' => some '\r'
  | 't' => some '\t'
  | _ => none

/-- Scan a JSON string body after the opening quote; returns the decoded
characters and the input after the closing quote. -/
def parseStrBody : List Char → Option (List Char × List Char)
  | [] => none
  | c :: rest =>
      if c = '"' then some ([], rest)
      else if c = '\\' then
        match rest with
        | [] => none
        | e :: rest2 =>
            if e = 'u' then
              match rest2 with
              | h1 :: h2 :: h3 :: h4 :: rest3 =>
                  match hexVal h1, hexVal h2, hexVal h3, hexVal h4 with
                  | some a, some b, some c', some d =>
                      (parseStrBody rest3).map
                        (fun p => (Char.ofNat (a * 4096 + b * 256 + c' * 16 + d) :: p.1, p.2))
                  | _, _, _, _ => none
              | _ => none
            else
              match escChar e with
              | some ec => (parseStrBody rest2).map (fun p => (ec :: p.1, p.2))
              | none => none
      else if c.toNat < 32 then none
      else (parseStrBody rest).map (fun p => (c :: p.1, p.2))

def isDigitC (c : Char) : Bool := '0' ≤ c && c ≤ '9'

/-- `-? (0 | [1-9][0-9]*)`, the integer part of a JSON number. -/
def parseIntPart : List Char → Option (List Char × List Char)
  | [] => none
  | c :: rest =>
      if c = '-' then
        match rest with
        | [] => none
        | c2 :: rest2 =>
            if c2 = '0' then some (['-', '0'], rest2)
            else if '1' ≤ c2 ∧ c2 ≤ '9' then
              some ('-' :: c2 :: (rest2.takeWhile isDigitC), rest2.dropWhile isDigitC)
            else none
      else if c = '0' then some (['0'], rest)
      else if '1' ≤ c ∧ c ≤ '9' then
        some (c :: (rest.takeWhile isDigitC), rest.dropWhile isDigitC)
      else none

/-- `(\.[0-9]+)?`. -/
def parseFrac : List Char → Option (List Char × List Char)
  | [] => some ([], [])
  | c :: rest =>
      if c = '.' then
        let ds := rest.takeWhile isDigitC
        if ds.isEmpty then none else some ('.' :: ds, rest.dropWhile isDigitC)
      else some ([], c :: rest)

/-- `([eE][+-]?[0-9]+)?`. -/
def parseExp : List Char → Option (List Char × List Char)
  | [] => some ([], [])
  | c :: rest =>
      if c = 'e' ∨ c = 'E' then
        match rest with
        | [] => none
        | s :: rest2 =>
            if s = '+' ∨ s = '-' then
              let ds := rest2.takeWhile isDigitC
              if ds.isEmpty then none
              else some (c :: s :: ds, rest2.dropWhile isDigitC)
            else
              let ds := (s :: rest2).takeWhile isDigitC
              if ds.isEmpty then none
              else some (c :: ds, (s :: rest2).dropWhile isDigitC)
      else some ([], c :: rest)

/-- JSON number, including the non-standard constants Python accepts. -/
def parseNum (cs : List Char) : Option (Json × List Char) :=
  if listStarts "NaN".data cs then some (.num "NaN", cs.drop 3)
  else if listStarts "Infinity".data cs then some (.num "Infinity", cs.drop 8)
  else if listStarts "-Infinity".data cs then some (.num "-Infinity", cs.drop 9)
  else
    match parseIntPart cs with
    | none => none
    | some (i, r1) =>
        match parseFrac r1 with
        | none => none
        | some (f, r2) =>
            match parseExp r2 with
            | none => none
            | some (x, r3) => some (.num ⟨i ++ f ++ x⟩, r3)

mutual

/-- One JSON value, with surrounding-whitespace skipping, fuel-bounded. -/
def jsonVal : Nat → List Char → Option (Json × List Char)
  | 0, _ => none
  | f + 1, cs =>
      match jsonSkipWs cs with
      | [] => none
      | c :: rest =>
          if c = '{' then jsonObjFirst f rest
          else if c = '[' then jsonArrFirst f rest
          else if c = '"' then (parseStrBody rest).map (fun p => (Json.jstr ⟨p.1⟩, p.2))
          else if c = 't' then
            if listStarts "rue".data rest then some (.jbool true, rest.drop 3) else none
          else if c = 'f' then
            if listStarts "alse".data rest then some (.jbool false, rest.drop 4) else none
          else if c = 'n' then
            if listStarts "ull".data rest then some (.null, rest.drop 3) else none
          else parseNum (c :: rest)

/-- Array contents right after `[`. -/
def jsonArrFirst : Nat → List Char → Option (Json × List Char)
  | 0, _ => none
  | f + 1, cs =>
      match jsonSkipWs cs with
      | ']' :: rest => some (.arr [], rest)
      | _ => (jsonArrItems f cs).map (fun p => (Json.arr p.1, p.2))

/-- One or more comma-separated array items, then `]`. -/
def jsonArrItems : Nat → List Char → Option (List Json × List Char)
  | 0, _ => none
  | f + 1, cs =>
      match jsonVal f cs with
      | none => none
      | some (v, r) =>
          match jsonSkipWs r with
          | ',' :: r2 => (jsonArrItems f r2).map (fun p => (v :: p.1, p.2))
          | ']' :: r2 => some ([v], r2)
          | _ => none

/-- Object contents right after `{`. -/
def jsonObjFirst : Nat → List Char → Option (Json × List Char)
  | 0, _ => none
  | f + 1, cs =>
      match jsonSkipWs cs with
      | '}' :: rest => some (.obj [], rest)
      | _ => (jsonObjItems f cs).map (fun p => (Json.obj p.1, p.2))

/-- One or more `"key": value` members, then `}`. -/
def jsonObjItems : Nat → List Char → Option (List (String × Json) × List Char)
  | 0, _ => none
  | f + 1, cs =>
      match jsonSkipWs cs with
      | '"' :: rest =>
          match parseStrBody rest with
          | none => none
          | some (k, r1) =>
              match jsonSkipWs r1 with
              | ':' :: r2 =>
                  match jsonVal f r2 with
                  | none => none
                  | some (v, r3) =>
                      match jsonSkipWs r3 with
                      | ',' :: r4 =>
                          (jsonObjItems f r4).map (fun p => ((⟨k⟩, v) :: p.1, p.2))
                      | '}' :: r4 => some ([(⟨k⟩, v)], r4)
                      | _ => none
              | _ => none
      | _ => none

end

/-- `json.loads`: a single value with nothing but whitespace around it.
The fuel `2 * length + 4` dominates the recursion depth: every two units of
fuel spent descending consume at least one input character. -/
def jsonParse (s : String) : Option Json :=
  match jsonVal (2 * s.data.length + 4) s.data with
  | some (v, rest) => if (jsonSkipWs rest).isEmpty then some v else none
  | none => none

/-- Keys of a decoded JSON object as `dict` iteration yields them:
duplicates collapse to their first position. -/
def dedupKeysAux (seen : List String) : List String → List String
  | [] => []
  | k :: rest =>
      if seen.contains k then dedupKeysAux seen rest
      else k :: dedupKeysAux (k :: seen) rest

/-- All-strings check for `[c.strip() for c in elems]` over a decoded array. -/
def mapStrs : List Json → Option (List String)
  | [] => some []
  | .jstr s :: rest => (mapStrs rest).map (pyStrip s :: ·)
  | _ :: _ => none

/-- `[c.strip() for c in v]` for a decoded JSON value `v`: succeeds exactly
when `v` is iterable with string elements — an array of strings, a string
(iterating characters), or an object (iterating keys); everything else
raises `TypeError`/`AttributeError` in the source. -/
def enumFromJson : Json → Option (List String)
  | .arr es => mapStrs es
  | .jstr s => some (s.data.map (fun c => pyStrip ⟨[c]⟩))
  | .obj ps => some ((dedupKeysAux [] (ps.map Prod.fst)).map pyStrip)
  | _ => none

/-! ### The `(choices: ...)` annotation matcher

`re.search(r"\(choices:\s*([^)]+)\)\s*$", desc, flags=re.IGNORECASE)` has
deterministic semantics: the match starts at the leftmost position carrying
the case-insensitive literal `(choices:`; `\s*` and the group together cover
everything up to the first `)` after the literal (at least one character),
and after that `)` only whitespace may remain.  The greedy `\s*` takes the
maximal whitespace run of that span, backtracking by one character when the
whole span is whitespace so that `[^)]+` still matches something: `group1Of`
computes the captured group from the span, `tryChoicesAt` checks one start
position, and `findChoicesAux` scans positions left to right. -/

def charEqCI (p c : Char) : Bool := p.toLower == c.toLower

/-- Case-insensitive "starts with". -/
def ciStarts : List Char → List Char → Bool
  | [], _ => true
  | _ :: _, [] => false
  | p :: ps, c :: cs => charEqCI p c && ciStarts ps cs

/-- The literal part of the pattern. -/
def choicesPat : List Char := ['(', 'c', 'h', 'o', 'i', 'c', 'e', 's', ':']

/-- Index of the first `)`. -/
def findRParen : List Char → Option Nat
  | [] => none
  | c :: rest =>
      if c = ')' then some 0
      else (findRParen rest).map (· + 1)

/-- `enum_choices.group(1)` for the span between the literal and the first
`)`: the greedy `\s*` strips the maximal leading whitespace run, except that
it gives one character back when the whole span is whitespace, since `[^)]+`
needs at least one character. -/
def group1Of (s1 : List Char) : List Char :=
  s1.drop (min (s1.takeWhile pyIsWs).length (s1.length - 1))

/-- Attempt the anchored pattern at this position. -/
def tryChoicesAt (cs : List Char) : Option (List Char) :=
  if ciStarts choicesPat cs then
    let rest := cs.drop 9
    match findRParen rest with
    | none => none
    | some r =>
        if r = 0 then none
        else if (rest.drop (r + 1)).all pyIsWs then some (group1Of (rest.take r))
        else none
  else none

/-- Leftmost match of the annotation pattern, with its start offset. -/
def findChoicesAux : List Char → Nat → Option (Nat × List Char)
  | [], _ => none
  | c :: rest, p =>
      match tryChoicesAt (c :: rest) with
      | some content => some (p, content)
      | none => findChoicesAux rest (p + 1)

/-- `re.search` for the annotation over a description string: the match start
(`enum_choices.start()`) and the bracketed payload handed to `json.loads`. -/
def findChoices (s : String) : Option (Nat × String) :=
  (findChoicesAux s.data 0).map (fun p => (p.1, (⟨p.2⟩ : String)))

/-! ### `parse_google_format_docstring`

The three `re.DOTALL` section patterns have these deterministic semantics
(derived in the comments of each helper):

* `^(.*?)[\n\s]*(Args:|Returns:|Raises:|\Z)` — the description is the prefix
  before the first occurrence of any keyword (or the whole text), stripped;
* `\n\s*Args:\n\s*(.*?)[\n\s]*(Returns:|Raises:|\Z)` — the block starts at
  the leftmost `Args:` that is directly preceded by a whitespace run
  containing a newline and directly followed by a newline; it ends before
  the first later `Returns:`/`Raises:` occurrence, and is stripped;
* the `Returns:` pattern is the same shape, terminated by `Raises:`. -/

def firstKw (cs : List Char) : Option Nat :=
  optMin (findSub "Args:".data cs)
    (optMin (findSub "Returns:".data cs) (findSub "Raises:".data cs))

/-- `description_match.group(1).strip()` (the pattern always matches). -/
def descrOf (cs : List Char) : List Char :=
  match firstKw cs with
  | some m => listStrip (cs.take m)
  | none => listStrip cs

/-- Scan for `hdr` (e.g. `"Args:\n"`) preceded by a whitespace run containing
a newline; the `Bool` records whether such a run ends just before the current
position.  Returns the suffix after the header. -/
def scanHdr (hdr : List Char) : Bool → List Char → Option (List Char)
  | _, [] => none
  | nl, c :: rest =>
      if nl && listStarts hdr (c :: rest) then some ((c :: rest).drop hdr.length)
      else
        scanHdr hdr (if c = '\n' then true else if pyIsWs c then nl else false) rest

/-- `args_match.group(1).strip()`, when the `Args:` pattern matches. -/
def argsTextOf (cs : List Char) : Option (List Char) :=
  (scanHdr "Args:\n".data false cs).map (fun suffix =>
    match optMin (findSub "Returns:".data suffix) (findSub "Raises:".data suffix) with
    | some m => listStrip (suffix.take m)
    | none => listStrip suffix)

/-- `returns_match.group(1).strip()`, when the `Returns:` pattern matches. -/
def retTextOf (cs : List Char) : Option (List Char) :=
  (scanHdr "Returns:\n".data false cs).map (fun suffix =>
    match findSub "Raises:".data suffix with
    | some m => listStrip (suffix.take m)
    | none => listStrip suffix)

/-- The `for line in arg_lines` loop: `line.split(":", 1)` must yield two
parts (otherwise the unpacking raises), and `args_dict[name] = desc`
upserts the stripped pieces. -/
def buildArgsDictAux (acc : List (String × String)) :
    List (List Char) → Except Err (List (String × String))
  | [] => .ok acc
  | line :: rest =>
      match splitColon1 line with
      | none => .error (.unpackNoColon ⟨line⟩)
      | some (n, d) =>
          buildArgsDictAux (dictUpsert ⟨listStrip n⟩ ⟨listStrip d⟩ acc) rest

/-- `parse_google_format_docstring`: description, Args dictionary, Returns
text.  A missing Args section yields an empty dictionary. -/
def parseDoc (doc : String) :
    Except Err (String × List (String × String) × Option String) :=
  let cs := doc.data
  let descr : String := ⟨descrOf cs⟩
  let ret := (retTextOf cs).map (fun l => (⟨l⟩ : String))
  match argsTextOf cs with
  | none => .ok (descr, [], ret)
  | some argsText =>
      match buildArgsDictAux [] (splitOnNl argsText) with
      | .error e => .error e
      | .ok dict => .ok (descr, dict, ret)

/-! ### `get_json_schema` -/

/-- One declared parameter: name, optional annotation, default presence. -/
structure Param where
  name : String
  hint : Option PyType
  hasDefault : Bool

/-- A callable as the module observes it: `inspect.getdoc` result,
`inspect.signature` parameters in declaration order, and the `return`
entry of `get_type_hints` when the callable has a return annotation
(a parameter cannot be named `return` — it is a Python keyword). -/
structure PyFunc where
  name : String
  docstring : Option String
  params : List Param
  returnHint : Option PyType

/-- The first signature loop: every parameter must carry an annotation. -/
def checkAnn (fn : String) : List Param → Except Err Unit
  | [] => .ok ()
  | p :: ps =>
      match p.hint with
      | none => .error (.missingTypeHint p.name fn)
      | some _ => checkAnn fn ps

/-- The `required.append(param_name)` accumulation over the signature. -/
def collectRequired : List Param → List String
  | [] => []
  | p :: ps => if p.hasDefault then collectRequired ps else p.name :: collectRequired ps

/-- The properties loop over `get_type_hints(func)`: annotated parameters in
declaration order, then the `return` entry. -/
def buildProps : List Param → Option PyType → Except Err (List (String × Schema))
  | [], none => .ok []
  | [], some rh =>
      match parseTypeHint rh with
      | .error e => .error e
      | .ok s => .ok [("return", s)]
  | p :: ps, rh =>
      match p.hint with
      | none => buildProps ps rh
      | some h =>
          match parseTypeHint h with
          | .error e => .error e
          | .ok s =>
              match buildProps ps rh with
              | .error e => .error e
              | .ok rest => .ok ((p.name, s) :: rest)

/-- The `{"type": "object", "properties": ..., "required"?: ...}` record;
`required = none` embeds the omitted key. -/
structure ParamsSchema where
  properties : List (String × Schema)
  required : Option (List String)

/-- `_convert_type_hints_to_json_schema`. -/
def convertTypeHints (f : PyFunc) : Except Err ParamsSchema :=
  match checkAnn f.name f.params with
  | .error e => .error e
  | .ok _ =>
      match buildProps f.params f.returnHint with
      | .error e => .error e
      | .ok props =>
          let req := collectRequired f.params
          .ok { properties := props,
                required := if req.isEmpty then none else some req }

/-- `json_schema["properties"].pop("return", None)`. -/
def popReturn : List (String × Schema) → Option Schema × List (String × Schema)
  | [] => (none, [])
  | (k, v) :: rest =>
      if k = "return" then (some v, rest)
      else
        let p := popReturn rest
        (p.1, (k, v) :: p.2)

/-- Lines 120–125 of the source for one parameter: search for the trailing
`(choices: ...)` annotation; on a match, decode it, attach `enum`, and strip
the annotation from the description; always attach the description. -/
def attachDescription (frag : Schema) (desc : String) : Except Err Schema :=
  match findChoices desc with
  | none => .ok (frag.setDescr desc)
  | some (st, content) =>
      match jsonParse content with
      | none => .error (.jsonDecodeFail content)
      | some v =>
          match enumFromJson v with
          | none => .error (.enumNotIterable content)
          | some choices =>
              .ok ((frag.setEnum choices).setDescr (pyStrip ⟨desc.data.take st⟩))

/-- The `for arg in json_schema["properties"]` loop: each property needs a
docstring entry, then its description/enum are merged. -/
def mergeProps (fn : String) (pd : List (String × String)) :
    List (String × Schema) → Except Err (List (String × Schema))
  | [] => .ok []
  | (arg, frag) :: rest =>
      match lookupAssoc arg pd with
      | none => .error (.missingDescr arg fn)
      | some desc =>
          match attachDescription frag desc with
          | .error e => .error e
          | .ok frag' =>
              match mergeProps fn pd rest with
              | .error e => .error e
              | .ok rest' => .ok ((arg, frag') :: rest')

/-- `return_dict["description"] = return_doc` when a Returns section parsed. -/
def attachRet : Option Schema → Option String → Option Schema
  | none, _ => none
  | some s, none => some s
  | some s, some r => some (s.setDescr r)

/-- The final record produced by `get_json_schema`; `ret = none` embeds the
omitted top-level `return` key. -/
structure SchemaOutput where
  name : String
  description : String
  parameters : ParamsSchema
  ret : Option Schema

/-- `get_json_schema`. -/
def getJsonSchema (f : PyFunc) : Except Err SchemaOutput :=
  match f.docstring with
  | none => .error (.missingDocstring f.name)
  | some doc =>
      if doc = "" then .error (.missingDocstring f.name)
      else
        match parseDoc (pyStrip doc) with
        | .error e => .error e
        | .ok (mainDoc, paramDescs, returnDoc) =>
            match convertTypeHints f with
            | .error e => .error e
            | .ok cs =>
                let pr := popReturn cs.properties
                match mergeProps f.name paramDescs pr.2 with
                | .error e => .error e
                | .ok merged =>
                    .ok { name := f.name,
                          description := mainDoc,
                          parameters := { properties := merged, required := cs.required },
                          ret := attachRet pr.1 returnDoc }

/-! ### Vocabulary for the claim statements -/

/-- The primitives that the spec's mapping table covers: `integer`, `number`,
`string`, `boolean`, and the null type. -/
def isMappedPrim : PyType → Bool
  | .int | .float | .str | .bool | .noneT => true
  | _ => false

/-- The spec's fixed primitive-name mapping, stated independently of the
converter (used to compare the code's output against the spec's table). -/
def specTypeName : PyType → String
  | .int => "integer"
  | .float => "number"
  | .str => "string"
  | .bool => "boolean"
  | _ => "object"

/-- Characters that make a `(choices: ["...", "..."])` element literal
unremarkable: no quote, no backslash, no closing parenthesis, no control
character. -/
def okStrChar (c : Char) : Bool :=
  !(c == '"') && !(c == '\\') && !(c == ')') && decide (32 ≤ c.toNat)

/-- Whether the case-insensitive literal `(choices:` occurs anywhere. -/
def ciContainsB : List Char → Bool
  | [] => false
  | c :: rest => ciStarts choicesPat (c :: rest) || ciContainsB rest

/-! ### Concrete instances used by counterexamples and witnesses -/

/-- A callable whose only parameter's description ends in
`(choices: "ab")` — content that is valid JSON but not a JSON array. -/
def fC5 : PyFunc :=
  { name := "f",
    docstring := some "Does a thing.\n\nArgs:\n    mode: the mode (choices: \"ab\")",
    params := [{ name := "mode", hint := some .str, hasDefault := false }],
    returnHint := none }

/-- The fragment `get_json_schema` produces for `mode` above: the string
`"ab"` was iterated character by character into `enum`. -/
def modeFrag : Schema :=
  ⟨some (.single "string"), none, none, none, none, none, some ["a", "b"], some "the mode"⟩

def outC5 : SchemaOutput :=
  { name := "f", description := "Does a thing.",
    parameters := { properties := [("mode", modeFrag)], required := some ["mode"] },
    ret := none }

/-- A callable whose choices annotation holds malformed JSON (`[oops`). -/
def fC5w : PyFunc :=
  { name := "f2",
    docstring := some "Top.\n\nArgs:\n    m: pick (choices: [oops)",
    params := [{ name := "m", hint := some .str, hasDefault := false }],
    returnHint := none }

def csC5w : ParamsSchema :=
  { properties := [("m", typeSchema (.single "string"))], required := some ["m"] }

/-- A two-parameter callable, one default, for the `required` witness. -/
def fC7 : PyFunc :=
  { name := "h",
    docstring := some "H.\n\nArgs:\n    a: first\n    b: second",
    params := [{ name := "a", hint := some .int, hasDefault := false },
               { name := "b", hint := some .str, hasDefault := true }],
    returnHint := none }

/-- A callable whose parameter `a` has no entry in the Args block. -/
def fC8 : PyFunc :=
  { name := "h8",
    docstring := some "T.\n\nArgs:\n    b: bee",
    params := [{ name := "a", hint := some .str, hasDefault := false }],
    returnHint := none }

def csC8 : ParamsSchema :=
  { properties := [("a", typeSchema (.single "string"))], required := some ["a"] }

/-- A callable with a return annotation and a Returns section. -/
def fC9 : PyFunc :=
  { name := "g",
    docstring := some "Does.\n\nArgs:\n    x: the x\n\nReturns:\n    the result",
    params := [{ name := "x", hint := some .int, hasDefault := false }],
    returnHint := some .str }

def xFragC9 : Schema :=
  ⟨some (.single "integer"), none, none, none, none, none, none, some "the x"⟩

def retFragC9 : Schema :=
  ⟨some (.single "string"), none, none, none, none, none, none, some "the result"⟩

def outC9 : SchemaOutput :=
  { name := "g", description := "Does.",
    parameters := { properties := [("x", xFragC9)], required := some ["x"] },
    ret := some retFragC9 }

/-! ### Basic lemmas about the converter -/

theorem isBasicT_of_mapped {t : PyType} (h : isMappedPrim t = true) :
    isBasicT t = true := by
  cases t <;> simp_all [isMappedPrim, isBasicT]

theorem basicTypeName_mapped {t : PyType} (h : isMappedPrim t = true) :
    basicTypeName t = .ok (specTypeName t) := by
  cases t <;> simp_all [isMappedPrim, basicTypeName, getJsonSchemaType, specTypeName,
    typeSchema, objectSchema, Schema.typ]

theorem mapTypeNames_mapped {args : List PyType} (h : args.all isMappedPrim = true) :
    mapTypeNames (args.filter keepUnion) =
      .ok ((args.filter (fun t => !isNoneT t)).map specTypeName) := by
  induction args with
  | nil => rfl
  | cons t ts ih =>
      rw [List.all_cons, Bool.and_eq_true] at h
      obtain ⟨ht, hts⟩ := h
      have hkeep : keepUnion t = !isNoneT t := by
        cases t <;> simp_all [isMappedPrim, keepUnion, isNoneT, isEllipsisT]
      by_cases hn : isNoneT t = true
      · simp [List.filter_cons, hkeep, hn, ih hts]
      · rw [Bool.not_eq_true] at hn
        simp [List.filter_cons, hkeep, hn, mapTypeNames, basicTypeName_mapped ht, ih hts]

theorem parseHintsAll_length : ∀ {ts : List PyType} {l : List Schema},
    parseHintsAll ts = .ok l → l.length = ts.length := by
  intro ts
  induction ts with
  | nil => intro l h; rw [parseHintsAll] at h; cases h; rfl
  | cons t ts ih =>
      intro l h
      rw [parseHintsAll] at h
      cases hp : parseTypeHint t with
      | error e => rw [hp] at h; cases h
      | ok s =>
          rw [hp] at h
          cases hr : parseHintsAll ts with
          | error e => rw [hr] at h; cases h
          | ok rest => rw [hr] at h; cases h; simp [ih hr]

/-! ### Claim theorems -/

/-- C1 (amended): a generic type hint whose origin is not `Union`/`list`/
`tuple`/`dict` fails with the `InvalidTypeError` naming the offending hint;
but a bare (non-generic) unknown type does not raise — `_get_json_schema_type`
falls back to `{"type": "object"}`. -/
theorem claim1_unsupported_hint :
    (∀ n args, parseTypeHint (.genericT n args) =
        .error (.unsupportedHint (.genericT n args)))
    ∧ (∀ n, parseTypeHint (.custom n) = .ok objectSchema) :=
  ⟨fun _ _ => rfl, fun _ => rfl⟩

/-- C1 counterexample: the claim says a bare type outside
integer/number/string/boolean/null/any (here, a custom class such as
`bytes`) makes conversion raise; the code instead returns the fragment
`{"type": "object"}`. -/
theorem claim1_counterexample :
    parseTypeHint (.custom "bytes") = .ok objectSchema := rfl

/-- C2: for a union of primitive type hints, the converter emits a `type`
field listing the mapped primitive names in member order with null removed,
collapsed to a bare string when a single name remains; a null member sets
`nullable: true` and nothing else is emitted. -/
theorem claim2_union_primitives (args : List PyType)
    (h : args.all isMappedPrim = true) :
    parseTypeHint (.unionT args) =
      .ok ⟨some (collapseTypes ((args.filter (fun t => !isNoneT t)).map specTypeName)),
           none, none, none, none,
           (if args.any isNoneT then some true else none), none, none⟩ := by
  have hall : args.all isBasicT = true := by
    rw [List.all_eq_true] at h ⊢
    exact fun t ht => isBasicT_of_mapped (h t ht)
  rw [parseTypeHint, if_pos hall, mapTypeNames_mapped h]
  by_cases hn : args.any isNoneT
  · simp [hn, applyNullable, typeSchema, Schema.setNullable]
  · simp [hn, applyNullable, typeSchema]

/-- C2 witness at `Union[int, None, float]`. -/
theorem claim2_witness :
    ([PyType.int, PyType.noneT, PyType.float].all isMappedPrim = true)
    ∧ parseTypeHint (.unionT [PyType.int, PyType.noneT, PyType.float]) =
        .ok ⟨some (.multi ["integer", "number"]), none, none, none, none,
             some true, none, none⟩ :=
  ⟨rfl, claim2_union_primitives [PyType.int, PyType.noneT, PyType.float] rfl⟩

/-- C3: a tuple hint of arity ≥ 2 without an ellipsis converts to
`{"type": "array", "prefixItems": [...]}` with one item per member; arity 1
fails with the arity error; any hint containing an ellipsis fails with one
of the two tuple `InvalidTypeError`s (the arity error when it is the only
member, the variadic error otherwise). -/
theorem claim3_tuple (ts : List PyType) :
    (∀ l, parseHintsAll ts = .ok l → 2 ≤ ts.length → ts.any isEllipsisT = false →
        parseTypeHint (.tupleT ts) = .ok (arrayPfx l) ∧ l.length = ts.length)
    ∧ (ts.length = 1 →
        parseTypeHint (.tupleT ts) = .error (.tupleArityOne (.tupleT ts)))
    ∧ (ts.any isEllipsisT = true →
        parseTypeHint (.tupleT ts) = .error (.tupleArityOne (.tupleT ts)) ∨
        parseTypeHint (.tupleT ts) = .error .tupleVariadic) := by
  refine ⟨?_, ?_, ?_⟩
  · intro l hl hlen hell
    match ts, hl, hlen, hell with
    | t1 :: t2 :: ts2, hl, _, hell =>
        constructor
        · rw [parseTypeHint, if_neg (by simp [hell]), hl]
        · exact parseHintsAll_length hl
  · intro hlen
    match ts, hlen with
    | [t], _ => rw [parseTypeHint]
  · intro hell
    match ts, hell with
    | [t], hell => exact Or.inl (by rw [parseTypeHint])
    | t1 :: t2 :: ts2, hell => exact Or.inr (by rw [parseTypeHint, if_pos hell])

/-- C3 witness: the three scenarios at `Tuple[int, str]`, `Tuple[int]`, and
`Tuple[int, ...]`. -/
theorem claim3_witness :
    (parseTypeHint (.tupleT [.int, .str]) =
        .ok (arrayPfx [typeSchema (.single "integer"), typeSchema (.single "string")])
      ∧ ([typeSchema (.single "integer"), typeSchema (.single "string")].length
          = [PyType.int, PyType.str].length))
    ∧ parseTypeHint (.tupleT [.int]) = .error (.tupleArityOne (.tupleT [.int]))
    ∧ (parseTypeHint (.tupleT [.int, .ellipsisT]) =
          .error (.tupleArityOne (.tupleT [.int, .ellipsisT])) ∨
        parseTypeHint (.tupleT [.int, .ellipsisT]) = .error .tupleVariadic) :=
  ⟨(claim3_tuple [.int, .str]).1 _ rfl (by decide) (by decide),
   (claim3_tuple [.int]).2.1 rfl,
   (claim3_tuple [.int, .ellipsisT]).2.2 rfl⟩

/-- C4: an Args-block line without a colon makes the parser fail — but via
the tuple-unpacking `ValueError` of `line.split(":", 1)`, not a descriptive
malformed-docstring error (the divergence the spec's design notes flag). -/
theorem claim4_no_colon_line :
    parseDoc "Fn.\n\nArgs:\n    x is the input" =
      .error (.unpackNoColon "x is the input") := rfl

/-- C7: whenever `_convert_type_hints_to_json_schema` produces a schema, its
`required` list is exactly the names of the parameters without a default, in
declaration order, and the key is omitted (`none`) when that list is empty. -/
theorem claim7_required (f : PyFunc) (ps : ParamsSchema)
    (h : convertTypeHints f = .ok ps) :
    ps.required =
      (if ((f.params.filter (fun p => !p.hasDefault)).map Param.name).isEmpty
       then none
       else some ((f.params.filter (fun p => !p.hasDefault)).map Param.name)) := by
  have hreq : collectRequired f.params =
      (f.params.filter (fun p => !p.hasDefault)).map Param.name := by
    induction f.params with
    | nil => rfl
    | cons p ps ih =>
        by_cases hd : p.hasDefault <;>
          simp [collectRequired, List.filter_cons, hd, ih]
  rw [convertTypeHints] at h
  cases hc : checkAnn f.name f.params with
  | error e => rw [hc] at h; cases h
  | ok u =>
      rw [hc] at h
      cases hb : buildProps f.params f.returnHint with
      | error e => rw [hb] at h; cases h
      | ok props => rw [hb] at h; cases h; simp [hreq]

/-- C7 witness at a signature with one defaulted and one requisite parameter. -/
theorem claim7_witness :
    convertTypeHints fC7 =
      .ok ⟨[("a", typeSchema (.single "integer")), ("b", typeSchema (.single "string"))],
           some ["a"]⟩
    ∧ (⟨[("a", typeSchema (.single "integer")), ("b", typeSchema (.single "string"))],
        some ["a"]⟩ : ParamsSchema).required =
      (if ((fC7.params.filter (fun p => !p.hasDefault)).map Param.name).isEmpty
       then none
       else some ((fC7.params.filter (fun p => !p.hasDefault)).map Param.name)) :=
  ⟨rfl, claim7_required fC7 _ rfl⟩

/-! ### Lemmas about the merge loop and the assembler -/

theorem mergeProps_append (fn : String) (pd : List (String × String))
    (a b : List (String × Schema)) :
    mergeProps fn pd (a ++ b) =
      match mergeProps fn pd a with
      | .error e => .error e
      | .ok ma =>
          match mergeProps fn pd b with
          | .error e => .error e
          | .ok mb => .ok (ma ++ mb) := by
  induction a with
  | nil =>
      simp only [List.nil_append, mergeProps]
      cases mergeProps fn pd b <;> rfl
  | cons x a ih =>
      obtain ⟨arg, frag⟩ := x
      simp only [List.cons_append, mergeProps, List.append_eq, ih]
      cases lookupAssoc arg pd with
      | none => rfl
      | some desc =>
          simp only []
          cases attachDescription frag desc with
          | error e => rfl
          | ok frag' =>
              simp only []
              cases mergeProps fn pd a with
              | error e => rfl
              | ok ma =>
                  simp only []
                  cases mergeProps fn pd b with
                  | error e => rfl
                  | ok mb => rfl

/-- Common spine for C5 and C8: with the pipeline pinned down to the merge
loop and the loop healthy up to `arg`, `get_json_schema` surfaces exactly the
error produced at `arg`. -/
theorem getJsonSchema_merge_error (f : PyFunc) (doc md : String)
    (pd : List (String × String)) (rd : Option String) (cs : ParamsSchema)
    (pros rest : List (String × Schema)) (arg : String) (frag : Schema)
    (m0 : List (String × Schema)) (e : Err)
    (hdoc : f.docstring = some doc) (hne : doc ≠ "")
    (hparse : parseDoc (pyStrip doc) = .ok (md, pd, rd))
    (hconv : convertTypeHints f = .ok cs)
    (hsplit : (popReturn cs.properties).2 = pros ++ (arg, frag) :: rest)
    (hpre : mergeProps f.name pd pros = .ok m0)
    (hstep : (match lookupAssoc arg pd with
              | none => Except.error (Err.missingDescr arg f.name)
              | some desc =>
                  match attachDescription frag desc with
                  | .error e' => Except.error e'
                  | .ok frag' => Except.ok frag') = Except.error e) :
    getJsonSchema f = .error e := by
  have hmerge : mergeProps f.name pd (popReturn cs.properties).2 = .error e := by
    rw [hsplit, mergeProps_append, hpre]
    simp only [mergeProps]
    cases hl : lookupAssoc arg pd with
    | none =>
        rw [hl] at hstep
        have hstep2 : Except.error (Err.missingDescr arg f.name) = Except.error e := hstep
        cases hstep2; rfl
    | some desc =>
        rw [hl] at hstep
        have hstep2 : (match attachDescription frag desc with
            | Except.error e' => Except.error e'
            | Except.ok frag' => Except.ok frag') = Except.error e := hstep
        simp only []
        cases ha : attachDescription frag desc with
        | error e' => rw [ha] at hstep2; cases hstep2; rfl
        | ok frag' => rw [ha] at hstep2; cases hstep2
  simp only [getJsonSchema, hdoc, if_neg hne, hparse, hconv, hmerge]

/-- C5 (amended): when the bracketed content of a trailing choices annotation
is not well-formed JSON at all, `json.loads` raises and schema generation
fails fatally — the annotation is neither dropped nor left in the
description.  (The original claim asked for an error whenever the content is
not a JSON *array*; `claim5_counterexample` shows valid non-array JSON is
instead iterated into an enum.) -/
theorem claim5_invalid_json_fatal (f : PyFunc) (doc md : String)
    (pd : List (String × String)) (rd : Option String) (cs : ParamsSchema)
    (pros rest : List (String × Schema)) (arg : String) (frag : Schema)
    (m0 : List (String × Schema)) (st : Nat) (content desc : String)
    (hdoc : f.docstring = some doc) (hne : doc ≠ "")
    (hparse : parseDoc (pyStrip doc) = .ok (md, pd, rd))
    (hconv : convertTypeHints f = .ok cs)
    (hsplit : (popReturn cs.properties).2 = pros ++ (arg, frag) :: rest)
    (hpre : mergeProps f.name pd pros = .ok m0)
    (hlook : lookupAssoc arg pd = some desc)
    (hch : findChoices desc = some (st, content))
    (hjson : jsonParse content = none) :
    getJsonSchema f = .error (.jsonDecodeFail content) := by
  apply getJsonSchema_merge_error f doc md pd rd cs pros rest arg frag m0 _
    hdoc hne hparse hconv hsplit hpre
  rw [hlook]
  simp only [attachDescription, hch, hjson]

/-- C5 counterexample: `(choices: "ab")` carries content that is valid JSON
but not a JSON array; the claim says generation must fail, yet the code
succeeds, iterating the string into `enum: ["a", "b"]` and stripping the
annotation from the description. -/
theorem claim5_counterexample : getJsonSchema fC5 = .ok outC5 := rfl

/-- C5 witness: the captured content `"[oops"` is malformed JSON and the
whole generation fails with the decode error. -/
theorem claim5_witness :
    jsonParse "[oops" = none
    ∧ getJsonSchema fC5w = .error (.jsonDecodeFail "[oops") :=
  ⟨rfl,
   claim5_invalid_json_fatal fC5w "Top.\n\nArgs:\n    m: pick (choices: [oops)"
     "Top." [("m", "pick (choices: [oops)")] none csC5w
     [] [] "m" (typeSchema (.single "string")) [] 5 "[oops"
     "pick (choices: [oops)"
     rfl (by decide) rfl rfl rfl rfl rfl rfl rfl⟩

/-- C8: a parameter present in the signature's type map but absent from the
parsed Args block makes `get_json_schema` fail with the
`MissingDescriptionError` naming that parameter (and the callable); no
schema record is returned. -/
theorem claim8_missing_description (f : PyFunc) (doc md : String)
    (pd : List (String × String)) (rd : Option String) (cs : ParamsSchema)
    (pros rest : List (String × Schema)) (arg : String) (frag : Schema)
    (m0 : List (String × Schema))
    (hdoc : f.docstring = some doc) (hne : doc ≠ "")
    (hparse : parseDoc (pyStrip doc) = .ok (md, pd, rd))
    (hconv : convertTypeHints f = .ok cs)
    (hsplit : (popReturn cs.properties).2 = pros ++ (arg, frag) :: rest)
    (hpre : mergeProps f.name pd pros = .ok m0)
    (hlook : lookupAssoc arg pd = none) :
    getJsonSchema f = .error (.missingDescr arg f.name) := by
  apply getJsonSchema_merge_error f doc md pd rd cs pros rest arg frag m0 _
    hdoc hne hparse hconv hsplit hpre
  rw [hlook]

/-- C8 witness: `a` is declared and typed but documented nowhere. -/
theorem claim8_witness :
    lookupAssoc "a" [("b", "bee")] = (none : Option String)
    ∧ getJsonSchema fC8 = .error (.missingDescr "a" "h8") :=
  ⟨rfl,
   claim8_missing_description fC8 "T.\n\nArgs:\n    b: bee" "T."
     [("b", "bee")] none csC8 [] [] "a" (typeSchema (.single "string")) []
     rfl (by decide) rfl rfl rfl rfl rfl⟩

/-! ### Lemmas for the `return` entry (C9) -/

theorem contains_false_of_forall {l : List String} {a : String}
    (h : ∀ x ∈ l, x ≠ a) : l.contains a = false := by
  induction l with
  | nil => rfl
  | cons x l ih =>
      simp only [List.contains_cons, Bool.or_eq_false_iff]
      refine ⟨?_, ih (fun y hy => h y (List.mem_cons_of_mem x hy))⟩
      exact beq_eq_false_iff_ne.mpr (Ne.symm (h x (List.mem_cons_self x l)))

theorem mergeProps_keys (fn : String) (pd : List (String × String)) :
    ∀ {l m : List (String × Schema)}, mergeProps fn pd l = .ok m →
      m.map Prod.fst = l.map Prod.fst := by
  intro l
  induction l with
  | nil => intro m h; rw [mergeProps] at h; cases h; rfl
  | cons x l ih =>
      intro m h
      obtain ⟨arg, frag⟩ := x
      rw [mergeProps] at h
      cases hl : lookupAssoc arg pd with
      | none => rw [hl] at h; cases h
      | some desc =>
          rw [hl] at h
          simp only [] at h
          cases ha : attachDescription frag desc with
          | error e => rw [ha] at h; cases h
          | ok frag' =>
              rw [ha] at h
              simp only [] at h
              cases hm : mergeProps fn pd l with
              | error e => rw [hm] at h; cases h
              | ok rest' =>
                  rw [hm] at h
                  simp only [] at h
                  cases h
                  simp [ih hm]

theorem buildProps_none_keys :
    ∀ {ps : List Param} {l : List (String × Schema)},
      buildProps ps none = .ok l → ∀ x ∈ l, ∃ p, p ∈ ps ∧ x.1 = p.name := by
  intro ps
  induction ps with
  | nil => intro l h x hx; rw [buildProps] at h; cases h; cases hx
  | cons p ps ih =>
      intro l h x hx
      rw [buildProps] at h
      cases hh : p.hint with
      | none =>
          rw [hh] at h
          simp only [] at h
          obtain ⟨q, hq, he⟩ := ih h x hx
          exact ⟨q, List.mem_cons_of_mem p hq, he⟩
      | some hint =>
          rw [hh] at h
          simp only [] at h
          cases hp : parseTypeHint hint with
          | error e => rw [hp] at h; cases h
          | ok s =>
              rw [hp] at h
              simp only [] at h
              cases hb : buildProps ps none with
              | error e => rw [hb] at h; cases h
              | ok rest =>
                  rw [hb] at h
                  simp only [] at h
                  cases h
                  rw [List.mem_cons] at hx
                  rcases hx with rfl | hx
                  · exact ⟨p, List.mem_cons_self p ps, rfl⟩
                  · obtain ⟨q, hq, he⟩ := ih hb x hx
                    exact ⟨q, List.mem_cons_of_mem p hq, he⟩

theorem buildProps_some_split :
    ∀ {ps : List Param} {rh : PyType} {l : List (String × Schema)},
      buildProps ps (some rh) = .ok l →
      ∃ l0 s, buildProps ps none = .ok l0 ∧ parseTypeHint rh = .ok s ∧
        l = l0 ++ [("return", s)] := by
  intro ps
  induction ps with
  | nil =>
      intro rh l h
      rw [buildProps] at h
      cases hp : parseTypeHint rh with
      | error e => rw [hp] at h; cases h
      | ok s =>
          rw [hp] at h
          simp only [] at h
          cases h
          exact ⟨[], s, rfl, rfl, rfl⟩
  | cons p ps ih =>
      intro rh l h
      rw [buildProps] at h
      cases hh : p.hint with
      | none =>
          rw [hh] at h
          simp only [] at h
          obtain ⟨l0, s, h1, h2, h3⟩ := ih h
          refine ⟨l0, s, ?_, h2, h3⟩
          rw [buildProps, hh]
          simp only []
          exact h1
      | some hint =>
          rw [hh] at h
          simp only [] at h
          cases hp : parseTypeHint hint with
          | error e => rw [hp] at h; cases h
          | ok s1 =>
              rw [hp] at h
              simp only [] at h
              cases hb : buildProps ps (some rh) with
              | error e => rw [hb] at h; cases h
              | ok rest =>
                  rw [hb] at h
                  simp only [] at h
                  cases h
                  obtain ⟨l0, s, h1, h2, h3⟩ := ih hb
                  refine ⟨(p.name, s1) :: l0, s, ?_, h2, ?_⟩
                  · rw [buildProps, hh]
                    simp only []
                    rw [hp, h1]
                  · rw [h3, List.cons_append]

theorem popReturn_no_ret :
    ∀ {l : List (String × Schema)}, (∀ x ∈ l, x.1 ≠ "return") →
      popReturn l = (none, l) := by
  intro l
  induction l with
  | nil => intro _; rfl
  | cons x l ih =>
      intro h
      obtain ⟨k, v⟩ := x
      have hk : ¬(k = "return") := h (k, v) (List.mem_cons_self _ l)
      rw [popReturn, if_neg hk, ih (fun y hy => h y (List.mem_cons_of_mem _ hy))]

theorem popReturn_with_ret :
    ∀ {l0 : List (String × Schema)} (s : Schema),
      (∀ x ∈ l0, x.1 ≠ "return") →
      popReturn (l0 ++ [("return", s)]) = (some s, l0) := by
  intro l0
  induction l0 with
  | nil => intro s _; simp [popReturn]
  | cons x l0 ih =>
      intro s h
      obtain ⟨k, v⟩ := x
      have hk : ¬(k = "return") := h (k, v) (List.mem_cons_self _ l0)
      rw [List.cons_append, popReturn, if_neg hk,
        ih s (fun y hy => h y (List.mem_cons_of_mem _ hy))]

theorem convertTypeHints_ok_inv {f : PyFunc} {cs : ParamsSchema}
    (h : convertTypeHints f = .ok cs) :
    buildProps f.params f.returnHint = .ok cs.properties := by
  rw [convertTypeHints] at h
  cases hc : checkAnn f.name f.params with
  | error e => rw [hc] at h; cases h
  | ok u =>
      rw [hc] at h
      simp only [] at h
      cases hb : buildProps f.params f.returnHint with
      | error e => rw [hb] at h; cases h
      | ok props =>
          rw [hb] at h
          simp only [] at h
          cases h
          rfl

theorem getJsonSchema_ok_inv {f : PyFunc} {out : SchemaOutput}
    (h : getJsonSchema f = .ok out) :
    ∃ doc md pd rd cs merged,
      f.docstring = some doc ∧ ¬(doc = "") ∧
      parseDoc (pyStrip doc) = .ok (md, pd, rd) ∧
      convertTypeHints f = .ok cs ∧
      mergeProps f.name pd (popReturn cs.properties).2 = .ok merged ∧
      out = { name := f.name, description := md,
              parameters := { properties := merged, required := cs.required },
              ret := attachRet (popReturn cs.properties).1 rd } := by
  rw [getJsonSchema] at h
  cases hd : f.docstring with
  | none => rw [hd] at h; cases h
  | some doc =>
      rw [hd] at h
      simp only [] at h
      by_cases hne : doc = ""
      · rw [if_pos hne] at h; cases h
      · rw [if_neg hne] at h
        cases hp : parseDoc (pyStrip doc) with
        | error e => rw [hp] at h; cases h
        | ok trip =>
            obtain ⟨md, pd, rd⟩ := trip
            rw [hp] at h
            simp only [] at h
            cases hc : convertTypeHints f with
            | error e => rw [hc] at h; cases h
            | ok cs =>
                rw [hc] at h
                simp only [] at h
                cases hm : mergeProps f.name pd (popReturn cs.properties).2 with
                | error e => rw [hm] at h; cases h
                | ok merged =>
                    rw [hm] at h
                    simp only [] at h
                    cases h
                    exact ⟨doc, md, pd, rd, cs, merged, rfl, hne, hp, rfl, hm, rfl⟩

/-- C9: whenever `get_json_schema` succeeds, the `return` entry of the type
map never appears among the output's properties; when the callable has a
return annotation the converted fragment appears under the top-level
`return` key, carrying the parsed Returns text as its description when one
was present; and the key is absent when there is no such entry.  (Parameters
cannot be named `return` — it is a Python keyword — which the hypothesis
records.) -/
theorem claim9_return_entry (f : PyFunc) (out : SchemaOutput)
    (hname : f.params.all (fun p => p.name != "return") = true)
    (h : getJsonSchema f = .ok out) :
    ((out.parameters.properties.map Prod.fst).contains "return" = false)
    ∧ (f.returnHint = none → out.ret = none)
    ∧ (∀ rh, f.returnHint = some rh → ∃ s doc md pd rd,
          f.docstring = some doc ∧ parseDoc (pyStrip doc) = .ok (md, pd, rd) ∧
          parseTypeHint rh = .ok s ∧
          out.ret = some (match rd with | some r => s.setDescr r | none => s)) := by
  obtain ⟨doc, md, pd, rd, cs, merged, hdoc, hne, hp, hc, hm, hout⟩ :=
    getJsonSchema_ok_inv h
  have hbp := convertTypeHints_ok_inv hc
  have hnm : ∀ p ∈ f.params, p.name ≠ "return" := by
    rw [List.all_eq_true] at hname
    intro p hp'
    simpa [bne_iff_ne] using hname p hp'
  cases hrh : f.returnHint with
  | none =>
      rw [hrh] at hbp
      have hkeys : ∀ x ∈ cs.properties, x.1 ≠ "return" := by
        intro x hx
        obtain ⟨p, hp2, he⟩ := buildProps_none_keys hbp x hx
        rw [he]; exact hnm p hp2
      have hpop := popReturn_no_ret hkeys
      have hk := mergeProps_keys f.name pd hm
      simp only [hpop] at hk
      refine ⟨?_, ?_, ?_⟩
      · rw [hout]
        simp only []
        apply contains_false_of_forall
        intro x hx
        rw [hk, List.mem_map] at hx
        obtain ⟨y, hy, rfl⟩ := hx
        exact hkeys y hy
      · intro _
        rw [hout]
        simp only [hpop, attachRet]
      · intro rh2 hrh2
        cases hrh2
  | some rh =>
      rw [hrh] at hbp
      obtain ⟨l0, s, h0, hs, hsplit⟩ := buildProps_some_split hbp
      have hkeys0 : ∀ x ∈ l0, x.1 ≠ "return" := by
        intro x hx
        obtain ⟨p, hp2, he⟩ := buildProps_none_keys h0 x hx
        rw [he]; exact hnm p hp2
      have hpop : popReturn cs.properties = (some s, l0) := by
        rw [hsplit]; exact popReturn_with_ret s hkeys0
      have hk := mergeProps_keys f.name pd hm
      simp only [hpop] at hk
      refine ⟨?_, ?_, ?_⟩
      · rw [hout]
        simp only []
        apply contains_false_of_forall
        intro x hx
        rw [hk, List.mem_map] at hx
        obtain ⟨y, hy, rfl⟩ := hx
        exact hkeys0 y hy
      · intro hno
        cases hno
      · intro rh2 hrh2
        cases hrh2
        refine ⟨s, doc, md, pd, rd, hdoc, hp, hs, ?_⟩
        rw [hout]
        simp only [hpop]
        cases rd with
        | none => rfl
        | some r => rfl

/-- C9 witness at a callable with a return annotation and a Returns section. -/
theorem claim9_witness :
    (fC9.params.all (fun p => p.name != "return") = true)
    ∧ ((outC9.parameters.properties.map Prod.fst).contains "return" = false)
    ∧ (fC9.returnHint = none → outC9.ret = none)
    ∧ (∀ rh, fC9.returnHint = some rh → ∃ s doc md pd rd,
          fC9.docstring = some doc ∧ parseDoc (pyStrip doc) = .ok (md, pd, rd) ∧
          parseTypeHint rh = .ok s ∧
          outC9.ret = some (match rd with | some r => s.setDescr r | none => s)) :=
  ⟨rfl, claim9_return_entry fC9 outC9 rfl rfl⟩

/-! ### Lemmas about the annotation scanner (C6, C10) -/

theorem ciStarts_long_append :
    ∀ (pat u w : List Char), pat.length ≤ u.length →
      ciStarts pat (u ++ w) = ciStarts pat u := by
  intro pat
  induction pat with
  | nil => intro u w _; rfl
  | cons p ps ih =>
      intro u w h
      cases u with
      | nil => simp at h
      | cons c u =>
          rw [List.cons_append, ciStarts, ciStarts,
            ih u w (Nat.le_of_succ_le_succ (by simpa using h))]

theorem ciStarts_boundary :
    ∀ (pat u : List Char) (c : Char) (v : List Char)
      (hlt : u.length < pat.length),
      ciStarts pat (u ++ c :: v) = true →
      charEqCI (pat.get ⟨u.length, hlt⟩) c = true := by
  intro pat u
  induction u generalizing pat with
  | nil =>
      intro c v hlt h
      cases pat with
      | nil => simp at hlt
      | cons p ps =>
          rw [List.nil_append, ciStarts, Bool.and_eq_true] at h
          exact h.1
  | cons a u ih =>
      intro c v hlt h
      cases pat with
      | nil => simp at hlt
      | cons p ps =>
          rw [List.cons_append, ciStarts, Bool.and_eq_true] at h
          exact ih ps c v (Nat.lt_of_succ_lt_succ (by simpa using hlt)) h.2

theorem ciContainsB_drop {l : List Char} (h : ciContainsB l = false) :
    ∀ q, ciStarts choicesPat (l.drop q) = false := by
  induction l with
  | nil => intro q; cases q <;> rfl
  | cons c rest ih =>
      rw [ciContainsB, Bool.or_eq_false_iff] at h
      intro q
      cases q with
      | zero => exact h.1
      | succ q => exact ih h.2 q

theorem pat_get_ne_lparen :
    ∀ k : Fin choicesPat.length, 1 ≤ k.val →
      charEqCI (choicesPat.get k) '(' = false := by decide

theorem no_hit_in_leading (D tail : List Char) (hD : ciContainsB D = false) :
    ∀ q, q < D.length → ciStarts choicesPat (D.drop q ++ '(' :: tail) = false := by
  intro q hq
  by_cases hlen : choicesPat.length ≤ (D.drop q).length
  · rw [ciStarts_long_append _ _ _ hlen]
    exact ciContainsB_drop hD q
  · by_contra hcon
    rw [Bool.not_eq_false] at hcon
    have hfin : (D.drop q).length < choicesPat.length := Nat.lt_of_not_le hlen
    have h1 : 1 ≤ (D.drop q).length := by
      rw [List.length_drop]; omega
    have hb := ciStarts_boundary choicesPat (D.drop q) '(' tail hfin hcon
    have hf := pat_get_ne_lparen ⟨(D.drop q).length, hfin⟩ h1
    rw [hb] at hf
    cases hf

theorem tryChoicesAt_not_start {cs : List Char}
    (h : ciStarts choicesPat cs = false) : tryChoicesAt cs = none := by
  simp [tryChoicesAt, h]

theorem findChoicesAux_skip (pre post : List Char)
    (h : ∀ q, q < pre.length → tryChoicesAt (pre.drop q ++ post) = none) :
    ∀ p, findChoicesAux (pre ++ post) p = findChoicesAux post (p + pre.length) := by
  induction pre with
  | nil => intro p; simp
  | cons c pre ih =>
      intro p
      have h0 : tryChoicesAt (c :: (pre ++ post)) = none := by
        simpa using h 0 (by simp)
      rw [List.cons_append, findChoicesAux, h0]
      simp only []
      rw [ih (fun q hq => by simpa using h (q + 1) (by simpa using Nat.succ_lt_succ hq))]
      congr 1
      simp [List.length_cons]
      omega

theorem findChoicesAux_none {l : List Char} (h : ciContainsB l = false) :
    ∀ p, findChoicesAux l p = none := by
  induction l with
  | nil => intro p; rfl
  | cons c rest ih =>
      rw [ciContainsB, Bool.or_eq_false_iff] at h
      intro p
      rw [findChoicesAux, tryChoicesAt_not_start h.1]
      exact ih h.2 (p + 1)

theorem findRParen_append {l : List Char} (r : List Char)
    (h : ∀ c ∈ l, c ≠ ')') : findRParen (l ++ ')' :: r) = some l.length := by
  induction l with
  | nil => rfl
  | cons c l ih =>
      have hc : ¬(c = ')') := h c (List.mem_cons_self c l)
      rw [List.cons_append, findRParen, if_neg hc,
        ih (fun y hy => h y (List.mem_cons_of_mem c hy))]
      rfl

theorem all_false_of_mem {l : List Char} {c : Char} (hm : c ∈ l)
    (hc : pyIsWs c = false) : l.all pyIsWs = false := by
  induction l with
  | nil => cases hm
  | cons x l ih =>
      rw [List.mem_cons] at hm
      rw [List.all_cons]
      rcases hm with rfl | hm
      · rw [hc]; rfl
      · rw [ih hm, Bool.and_false]

/-- First-occurrence decomposition at `)`. -/
theorem mem_rparen_split {l : List Char} (h : (')' : Char) ∈ l) :
    ∃ m1 m2, l = m1 ++ ')' :: m2 ∧ ∀ c ∈ m1, c ≠ ')' := by
  induction l with
  | nil => cases h
  | cons c l ih =>
      by_cases hc : c = ')'
      · exact ⟨[], l, by rw [hc, List.nil_append], by intro y hy; cases hy⟩
      · rw [List.mem_cons] at h
        rcases h with h | h
        · exact absurd h.symm hc
        · obtain ⟨m1, m2, he, hn⟩ := ih h
          refine ⟨c :: m1, m2, by rw [he, List.cons_append], ?_⟩
          intro y hy
          rw [List.mem_cons] at hy
          rcases hy with rfl | hy
          · exact hc
          · exact hn y hy

theorem strData_append (s t : String) : (s ++ t).data = s.data ++ t.data := by
  cases s; cases t; rfl

theorem ciStarts_pat_self (rest : List Char) :
    ciStarts choicesPat
      ('(' :: 'c' :: 'h' :: 'o' :: 'i' :: 'c' :: 'e' :: 's' :: ':' :: rest) = true := rfl

theorem drop_append_cons (l : List Char) (c : Char) (r : List Char) :
    (l ++ c :: r).drop (l.length + 1) = r := by
  induction l with
  | nil => rfl
  | cons x l ih =>
      simp only [List.cons_append, List.length_cons, List.drop_succ_cons]
      exact ih

theorem take_append_cons (l : List Char) (c : Char) (r : List Char) :
    (l ++ c :: r).take l.length = l := by
  induction l with
  | nil => rfl
  | cons x l ih =>
      simp only [List.cons_append, List.length_cons, List.take_succ_cons, ih]

/-- Evaluation of one anchored attempt when the literal matches and the next
`)` splits the remainder as `L ++ ')' :: R`. -/
theorem tryChoicesAt_eval (L R : List Char) (hL : ∀ c ∈ L, c ≠ ')')
    (hne : 0 < L.length) :
    tryChoicesAt ('(' :: 'c' :: 'h' :: 'o' :: 'i' :: 'c' :: 'e' :: 's' :: ':'
        :: (L ++ ')' :: R))
      = if R.all pyIsWs then some (group1Of L) else none := by
  simp only [tryChoicesAt, if_pos (ciStarts_pat_self (L ++ ')' :: R)),
    List.drop_succ_cons, List.drop_zero]
  rw [findRParen_append R hL]
  simp only []
  rw [if_neg (by omega), drop_append_cons, take_append_cons]

/-- C10: a trailing choices annotation whose bracketed payload contains `)`
is not recognised by the `[^)]+` extraction pattern: no error is raised, no
`enum` is attached, and the annotation text stays in the emitted
description. -/
theorem claim10_paren_in_choices (frag : Schema) (d mid ws2 : String)
    (hd : ciContainsB d.data = false)
    (htail : ciContainsB (("choices: [" ++ mid ++ "])" ++ ws2).data) = false)
    (hmid : (')' : Char) ∈ mid.data)
    (hws : ws2.data.all pyIsWs = true) :
    attachDescription frag (d ++ "(choices: [" ++ mid ++ "])" ++ ws2) =
      .ok (frag.setDescr (d ++ "(choices: [" ++ mid ++ "])" ++ ws2)) := by
  obtain ⟨D⟩ := d
  obtain ⟨M⟩ := mid
  obtain ⟨W⟩ := ws2
  simp only [] at hd hmid hws htail
  obtain ⟨m1, m2, hM, hm1⟩ := mem_rparen_split hmid
  subst hM
  have hnp : ∀ c ∈ (' ' :: '[' :: m1), c ≠ ')' := by
    intro c hc
    rw [List.mem_cons, List.mem_cons] at hc
    rcases hc with rfl | rfl | hc
    · decide
    · decide
    · exact hm1 c hc
  have hdata : (String.mk D ++ "(choices: [" ++ String.mk (m1 ++ ')' :: m2)
        ++ "])" ++ String.mk W).data
      = D ++ '(' :: 'c' :: 'h' :: 'o' :: 'i' :: 'c' :: 'e' :: 's' :: ':'
          :: ((' ' :: '[' :: m1) ++ ')' :: (m2 ++ ']' :: ')' :: W)) := by
    simp only [strData_append]
    simp [List.append_assoc]
  have hT : (("choices: [" ++ String.mk (m1 ++ ')' :: m2) ++ "])"
        ++ String.mk W) : String).data
      = 'c' :: 'h' :: 'o' :: 'i' :: 'c' :: 'e' :: 's' :: ':'
          :: ((' ' :: '[' :: m1) ++ ')' :: (m2 ++ ']' :: ')' :: W)) := by
    simp only [strData_append]
    simp [List.append_assoc]
  rw [hT] at htail
  have hallws : (m2 ++ ']' :: ')' :: W).all pyIsWs = false := by
    apply all_false_of_mem (c := ')')
    · simp
    · decide
  have hscan : findChoicesAux
      (D ++ '(' :: 'c' :: 'h' :: 'o' :: 'i' :: 'c' :: 'e' :: 's' :: ':'
        :: ((' ' :: '[' :: m1) ++ ')' :: (m2 ++ ']' :: ')' :: W))) 0 = none := by
    rw [findChoicesAux_skip D _
      (fun q hq => tryChoicesAt_not_start (no_hit_in_leading D _ hd q hq))]
    rw [findChoicesAux,
      tryChoicesAt_eval (' ' :: '[' :: m1) (m2 ++ ']' :: ')' :: W) hnp (by simp),
      hallws]
    simp only [Bool.false_eq_true, if_false]
    exact findChoicesAux_none htail _
  simp only [attachDescription, findChoices, hdata, hscan, Option.map_none']

/-- C10 witness: the annotation `(choices: ["a)", "b"])` from the claim. -/
theorem claim10_witness :
    ((')' : Char) ∈ ("\"a)\", \"b\"" : String).data)
    ∧ attachDescription emptySchema
        ("mode " ++ "(choices: [" ++ "\"a)\", \"b\"" ++ "])" ++ "") =
      .ok (emptySchema.setDescr
        ("mode " ++ "(choices: [" ++ "\"a)\", \"b\"" ++ "])" ++ "")) :=
  ⟨by decide,
   claim10_paren_in_choices emptySchema "mode " "\"a)\", \"b\"" ""
     (by decide) (by decide) (by decide) (by decide)⟩

/-! ### JSON evaluation lemmas (C6) -/

theorem okStrChar_spec {c : Char} (h : okStrChar c = true) :
    c ≠ '"' ∧ c ≠ '\\' ∧ c ≠ ')' ∧ 32 ≤ c.toNat := by
  simpa [okStrChar, and_assoc] using h

theorem parseStrBody_append (A : List Char) (r : List Char)
    (hA : ∀ c ∈ A, okStrChar c = true) :
    parseStrBody (A ++ '"' :: r) = some (A, r) := by
  induction A with
  | nil =>
      rw [List.nil_append, parseStrBody.eq_def]
      simp
  | cons a A ih =>
      obtain ⟨h1, h2, _, h4⟩ := okStrChar_spec (hA a (List.mem_cons_self a A))
      rw [List.cons_append, parseStrBody.eq_def]
      simp only []
      rw [if_neg h1, if_neg h2, if_neg (by omega),
        ih (fun c hc => hA c (List.mem_cons_of_mem a hc))]
      rfl

theorem jsonVal_two_strings (A B : List Char) (k : Nat)
    (hA : ∀ c ∈ A, okStrChar c = true) (hB : ∀ c ∈ B, okStrChar c = true) :
    jsonVal (k + 1 + 1 + 1 + 1 + 1)
      ('[' :: '"' :: (A ++ '"' :: ',' :: ' ' :: '"' :: (B ++ ['"', ']'])))
      = some (.arr [.jstr ⟨A⟩, .jstr ⟨B⟩], []) := by
  have hs1 : parseStrBody (A ++ '"' :: ',' :: ' ' :: '"' :: (B ++ ['"', ']']))
      = some (A, ',' :: ' ' :: '"' :: (B ++ ['"', ']'])) :=
    parseStrBody_append A _ hA
  have hs2 : parseStrBody (B ++ ['"', ']']) = some (B, [']']) :=
    parseStrBody_append B [']'] hB
  simp [jsonVal, jsonArrFirst, jsonArrItems, jsonSkipWs, List.dropWhile_cons,
    jsonIsWs, hs1, hs2]

theorem jsonParse_two_strings (A B : List Char)
    (hA : ∀ c ∈ A, okStrChar c = true) (hB : ∀ c ∈ B, okStrChar c = true) :
    jsonParse ⟨'[' :: '"' :: (A ++ '"' :: ',' :: ' ' :: '"' :: (B ++ ['"', ']']))⟩
      = some (.arr [.jstr ⟨A⟩, .jstr ⟨B⟩]) := by
  simp only [jsonParse]
  have hpos : 0 < ('[' :: '"'
      :: (A ++ '"' :: ',' :: ' ' :: '"' :: (B ++ ['"', ']']))).length := by
    simp
  obtain ⟨k, hk⟩ : ∃ k, 2 * ('[' :: '"'
      :: (A ++ '"' :: ',' :: ' ' :: '"' :: (B ++ ['"', ']']))).length + 4
      = k + 1 + 1 + 1 + 1 + 1 :=
    ⟨2 * ('[' :: '"'
      :: (A ++ '"' :: ',' :: ' ' :: '"' :: (B ++ ['"', ']']))).length - 1,
     by omega⟩
  rw [hk, jsonVal_two_strings A B k hA hB]
  rfl

/-- C6: a description ending in a well-formed annotation
`(choices: ["a", "b"])` — whatever whitespace follows it, with element
literals of unremarkable characters and no other `(choices:` marker in the
text — produces a fragment with `enum` holding the two elements (each
stripped of surrounding whitespace) and a `description` equal to the text
with the annotation removed (and stripped). -/
theorem claim6_choices_enum (frag : Schema) (d a b ws2 : String)
    (hd : ciContainsB d.data = false)
    (ha : a.data.all okStrChar = true) (hb : b.data.all okStrChar = true)
    (hws : ws2.data.all pyIsWs = true) :
    attachDescription frag
      (d ++ "(choices: [\"" ++ a ++ "\", \"" ++ b ++ "\"])" ++ ws2)
      = .ok ((frag.setEnum [pyStrip a, pyStrip b]).setDescr (pyStrip d)) := by
  obtain ⟨D⟩ := d
  obtain ⟨A⟩ := a
  obtain ⟨B⟩ := b
  obtain ⟨W⟩ := ws2
  simp only [] at hd ha hb hws
  rw [List.all_eq_true] at ha hb
  have hdata : (String.mk D ++ "(choices: [\"" ++ String.mk A ++ "\", \""
        ++ String.mk B ++ "\"])" ++ String.mk W).data
      = D ++ '(' :: 'c' :: 'h' :: 'o' :: 'i' :: 'c' :: 'e' :: 's' :: ':'
          :: ((' ' :: '[' :: '"'
              :: (A ++ '"' :: ',' :: ' ' :: '"' :: (B ++ ['"', ']'])))
            ++ ')' :: W) := by
    simp only [strData_append]
    simp [List.append_assoc]
  have hL : ∀ c ∈ (' ' :: '[' :: '"'
      :: (A ++ '"' :: ',' :: ' ' :: '"' :: (B ++ ['"', ']']))), c ≠ ')' := by
    intro c hc hcc
    subst hcc
    simp at hc
    rcases hc with hc | hc
    · exact (okStrChar_spec (ha ')' hc)).2.2.1 rfl
    · exact (okStrChar_spec (hb ')' hc)).2.2.1 rfl
  have hg : group1Of (' ' :: '[' :: '"'
      :: (A ++ '"' :: ',' :: ' ' :: '"' :: (B ++ ['"', ']'])))
      = '[' :: '"' :: (A ++ '"' :: ',' :: ' ' :: '"' :: (B ++ ['"', ']'])) := by
    have ht : (' ' :: '[' :: '"'
        :: (A ++ '"' :: ',' :: ' ' :: '"' :: (B ++ ['"', ']']))).takeWhile pyIsWs
        = [' '] := rfl
    simp only [group1Of, ht]
    rw [Nat.min_eq_left (by simp)]
    rfl
  have hscan : findChoicesAux
      (D ++ '(' :: 'c' :: 'h' :: 'o' :: 'i' :: 'c' :: 'e' :: 's' :: ':'
        :: ((' ' :: '[' :: '"'
            :: (A ++ '"' :: ',' :: ' ' :: '"' :: (B ++ ['"', ']'])))
          ++ ')' :: W)) 0
      = some (D.length,
          '[' :: '"' :: (A ++ '"' :: ',' :: ' ' :: '"' :: (B ++ ['"', ']']))) := by
    rw [findChoicesAux_skip D _
      (fun q hq => tryChoicesAt_not_start (no_hit_in_leading D _ hd q hq))]
    rw [findChoicesAux, tryChoicesAt_eval _ W hL (by simp), if_pos hws]
    simp [hg]
  have hfind : findChoices (String.mk D ++ "(choices: [\"" ++ String.mk A
        ++ "\", \"" ++ String.mk B ++ "\"])" ++ String.mk W)
      = some (D.length, ⟨'[' :: '"'
          :: (A ++ '"' :: ',' :: ' ' :: '"' :: (B ++ ['"', ']']))⟩) := by
    simp only [findChoices, hdata, hscan, Option.map_some']
  have hjson := jsonParse_two_strings A B ha hb
  have henum : enumFromJson (.arr [.jstr ⟨A⟩, .jstr ⟨B⟩])
      = some [pyStrip ⟨A⟩, pyStrip ⟨B⟩] := rfl
  simp only [attachDescription, hfind, hjson, henum, hdata, List.take_left]

/-- C6 witness: description `the mode (choices: [" fast", "slow"]) ` with
whitespace around the annotation and inside an element literal. -/
theorem claim6_witness :
    ciContainsB ("the mode " : String).data = false
    ∧ (" fast" : String).data.all okStrChar = true
    ∧ ("slow" : String).data.all okStrChar = true
    ∧ (" " : String).data.all pyIsWs = true
    ∧ attachDescription emptySchema
        ("the mode " ++ "(choices: [\"" ++ " fast" ++ "\", \"" ++ "slow" ++ "\"])" ++ " ")
      = .ok ((emptySchema.setEnum [pyStrip " fast", pyStrip "slow"]).setDescr
          (pyStrip "the mode ")) :=
  ⟨by decide, by decide, by decide, by decide,
   claim6_choices_enum emptySchema "the mode " " fast" "slow" " "
     (by decide) (by decide) (by decide) (by decide)⟩
